import Mathlib

/-!  Verification model of scripts/salt_lake_county.py.

The Python source is embedded shallowly:

* Python strings are modelled as lists of characters (Str below).
* DOM access is modelled by its observable results: every
  query_selector / get_attribute / text_content outcome becomes an
  Option Str input, and page.content() becomes a Str.
* The asyncio crawl is modelled as a sequence of handler executions over
  an explicit frontier.  asyncio is cooperatively scheduled within one OS
  thread and the script's dedup check (the membership test on visited_mls
  followed by visited_mls.add) contains no await point, so a
  handler-step-at-a-time small-step model is adequate for the run-level
  properties proved here.  Retries and the global request ceiling only
  remove handler executions; they never add ones, so they are not modelled.
* The regular-expression searches of extract_detail and of the city slug
  are embedded operationally: leftmost match, greedy quantifiers with
  exactly the backtracking the concrete patterns allow.
-/

namespace SaltLake

/-- Python strings, modelled as lists of characters. -/
abbrev Str := List Char

/-- Python ASCII whitespace, as used by str.strip() and the regex class \s
    (the model restricts Python's Unicode whitespace to ASCII). -/
def isWs (c : Char) : Bool :=
  c == ' ' || c == '\t' || c == '\n' || c == '\r' || c == Char.ofNat 11 || c == Char.ofNat 12

/-- ASCII decimal digit, the regex classes \d and [0-9]. -/
def isDigit (c : Char) : Bool :=
  '0' ≤ c && c ≤ '9'

/-- str.lower() (ASCII model of Python case mapping). -/
def pyLower (s : Str) : Str := s.map Char.toLower

/-- str.strip(chars) / str.strip(): drop characters satisfying p from both ends. -/
def stripBoth (p : Char → Bool) (s : Str) : Str :=
  ((s.reverse.dropWhile p).reverse).dropWhile p

/-- str.strip() with no argument: strip whitespace. -/
def pyStripWs (s : Str) : Str := stripBoth isWs s

/-- str.strip(chars): strip every character that occurs in the set. -/
def pyStrip (charSet : Str) (s : Str) : Str :=
  stripBoth (fun c => charSet.contains c) s

/-- str.replace(",", ""): remove every comma. -/
def removeCommas (s : Str) : Str := s.filter (fun c => c != ',')

/-- Python str.split(sep) for a nonempty separator: scan left to right,
    cutting at each non-overlapping occurrence of sep.  Plain structural
    recursion on a fuel argument; pySplit below instantiates the fuel with
    the string length, which suffices because every recursive call consumes
    at least one character. -/
def pySplitGo (sep : Str) : Nat → Str → List Str
  | _, [] => [[]]
  | 0, s => [s]
  | fuel + 1, c :: rest =>
    if sep.isPrefixOf (c :: rest) && !sep.isEmpty then
      [] :: pySplitGo sep fuel (rest.drop (sep.length - 1))
    else
      match pySplitGo sep fuel rest with
      | [] => [[c]]
      | p :: ps => (c :: p) :: ps

/-- str.split(sep), sep nonempty. -/
def pySplit (sep s : Str) : List Str := pySplitGo sep s.length s

/-- re.sub(r"\s+", " ", s): collapse every whitespace run to one space. -/
def collapseWs : Str → Str
  | [] => []
  | c :: rest =>
    let t := collapseWs rest
    if isWs c then
      match t with
      | ' ' :: _ => t
      | _ => ' ' :: t
    else c :: t

/-- Python's substring test `pat in s`: pat occurs at some position of s. -/
def strContains (pat : Str) : Str → Bool
  | [] => pat.isEmpty
  | c :: rest => pat.isPrefixOf (c :: rest) || strContains pat rest

/-- Case-insensitive literal match (how re.I compares literal pattern text). -/
def ciIsPrefixOf : Str → Str → Bool
  | [], _ => true
  | _ :: _, [] => false
  | p :: ps, c :: cs => (p.toLower == c.toLower) && ciIsPrefixOf ps cs

/-! Literal strings of the script. -/

def detailLabel : Str := "detail".toList
def cityKey : Str := "city".toList
def unknownCity : Str := "unknown".toList
def siteBase : Str := "https://www.utahrealestate.com".toList
def listingMarker : Str := "/listing/".toList
def homesLit : Str := "-homes".toList
def cityLit : Str := "utahrealestate.com/".toList
def yearLit : Str := "year".toList
def builtLit : Str := "built".toList
def garageLit : Str := "garage".toList
def lotLit : Str := "lot".toList
def acLit : Str := "ac".toList
def sqDotFtLit : Str := "sq. ft".toList
def sqFtLit : Str := "sq ft".toList
def commaSpaceLit : Str := ", ".toList
def stripSet : Str := " ,".toList
def schemeBlocklist : List Str := ["javascript:", "mailto:", "tel:", "#"].map String.toList

/-! Regex searches of extract_detail, embedded operationally. -/

/-- One attempt of re.search(r"Year\s*Built[^0-9]*(\d{4})", html, re.I) at a
    fixed start position.  The quantifiers are deterministic here: \s* must
    end at the first non-space (the following literal starts with a letter),
    [^0-9]* must end at the first digit, and the four-fold \d takes the next
    four characters, which must all be digits. -/
def tryYearBuilt (t : Str) : Option Str :=
  if ciIsPrefixOf yearLit t then
    let t1 := (t.drop 4).dropWhile isWs
    if ciIsPrefixOf builtLit t1 then
      let t2 := (t1.drop 5).dropWhile (fun c => !isDigit c)
      let g := t2.take 4
      if g.length == 4 && g.all isDigit then some g else none
    else none
  else none

/-- re.search for the Year Built pattern: leftmost matching start position. -/
def searchYearBuilt : Str → Option Str
  | [] => none
  | c :: rest =>
    match tryYearBuilt (c :: rest) with
    | some g => some g
    | none => searchYearBuilt rest

/-- One attempt of re.search(r"Garage[^0-9]*(\d+)", html, re.I) at a fixed
    start position: skip non-digits greedily, then take the maximal digit
    run, which must be nonempty. -/
def tryGarage (t : Str) : Option Str :=
  if ciIsPrefixOf garageLit t then
    let t1 := (t.drop 6).dropWhile (fun c => !isDigit c)
    let g := t1.takeWhile isDigit
    if g.isEmpty then none else some g
  else none

/-- re.search for the Garage pattern: leftmost matching start position. -/
def searchGarage : Str → Option Str
  | [] => none
  | c :: rest =>
    match tryGarage (c :: rest) with
    | some g => some g
    | none => searchGarage rest

/-- The unit alternation (?:ac|acre|sq\.? ft) of the Lot pattern, under re.I.
    Python tries the alternatives left to right and the pattern ends with the
    group, so "ac" subsumes "acre"; \.? is greedy, so "sq. ft" is tried
    before "sq ft". -/
def lotUnit (w : Str) : Option Str :=
  if ciIsPrefixOf acLit w then some (w.take 2)
  else if ciIsPrefixOf sqDotFtLit w then some (w.take 6)
  else if ciIsPrefixOf sqFtLit w then some (w.take 5)
  else none

/-- The group ([\d.,]+\s*(?:ac|acre|sq\.? ft)) at a fixed start position.
    [\d.,]+ and \s* are deterministic: the following unit begins with a
    letter, which neither class contains. -/
def lotBody (u : Str) : Option Str :=
  let num := u.takeWhile (fun c => isDigit c || c == '.' || c == ',')
  if num.isEmpty then none
  else
    let v := u.drop num.length
    let sp := v.takeWhile isWs
    match lotUnit (v.drop sp.length) with
    | some uu => some (num ++ sp ++ uu)
    | none => none

/-- Backtracking of the greedy [^0-9]* that follows the literal "Lot": try
    the maximal skip first, then shorter skips down to zero. -/
def tryLotSkip (t : Str) : Nat → Option Str
  | 0 => lotBody t
  | k + 1 =>
    match lotBody (t.drop (k + 1)) with
    | some g => some g
    | none => tryLotSkip t k

/-- One attempt of re.search(r"Lot[^0-9]*([\d.,]+\s*(?:ac|acre|sq\.? ft))",
    html, re.I) at a fixed start position. -/
def tryLot (t : Str) : Option Str :=
  if ciIsPrefixOf lotLit t then
    let t1 := t.drop 3
    tryLotSkip t1 ((t1.takeWhile (fun c => !isDigit c)).length)
  else none

/-- re.search for the Lot pattern: leftmost matching start position. -/
def searchLot : Str → Option Str
  | [] => none
  | c :: rest =>
    match tryLot (c :: rest) with
    | some g => some g
    | none => searchLot rest

/-! The city regex of extract_search_results. -/

/-- Greedy backtracking for ([^/]+) followed by the literal "-homes": the
    largest slug length between 1 and the given bound such that "-homes"
    follows; the bound is the length of the maximal slash-free run. -/
def trySlugLen (t : Str) : Nat → Option Str
  | 0 => none
  | k + 1 =>
    if homesLit.isPrefixOf (t.drop (k + 1)) then some (t.take (k + 1))
    else trySlugLen t k

/-- re.search(r"utahrealestate\.com/([^/]+)-homes", url): leftmost match,
    capture group 1 (case-sensitive, no flags in the source). -/
def searchCity : Str → Option Str
  | [] => none
  | c :: rest =>
    if cityLit.isPrefixOf (c :: rest) then
      match trySlugLen ((c :: rest).drop cityLit.length)
          ((((c :: rest).drop cityLit.length).takeWhile (fun x => x != '/')).length) with
      | some s => some s
      | none => searchCity rest
    else searchCity rest

/-- Lines 114-116: city slug from the page URL, defaulting to "unknown". -/
def cityFromUrl (url : Str) : Str :=
  match searchCity url with
  | some s => s
  | none => unknownCity

/-! Plain utility functions of the script. -/

/-- MAX_MEMORY_GB = 7.0 (line 10), modelled as a rational. -/
def MAX_MEMORY_GB : ℚ := 7

/-- check_memory (lines 23-28) as a function of the sampled resident memory
    in GB.  none models raising MemoryError; some models returning mem_gb. -/
def check_memory (mem_gb : ℚ) : Option ℚ :=
  if mem_gb > MAX_MEMORY_GB * (9 / 10) then none else some mem_gb

/-- safe_text (lines 43-51).  The argument models the element lookup: none is
    a missing element, a raised exception, or a selector error; some txt is a
    found element whose text_content (with None coalesced to "") is txt. -/
def safe_text (el : Option Str) : Str :=
  match el with
  | some txt => pyStripWs txt
  | none => []

/-- is_valid_url (lines 54-57). -/
def is_valid_url (url : Str) : Bool :=
  if url.isEmpty then false
  else !(schemeBlocklist.any fun p => p.isPrefixOf (pyLower url))

/-! Data model: records, requests, crawl state. -/

/-- The fixed CSV schema (lines 13-16). -/
def CSV_HEADERS : List Str :=
  ["mls", "price", "address", "beds", "baths", "sqft",
   "year_built", "lot_size", "garage", "agent", "city"].map String.toList

/-- One structured output row, all fields string-typed. -/
structure Record where
  mls : Str
  price : Str
  address : Str
  beds : Str
  baths : Str
  sqft : Str
  year_built : Str
  lot_size : Str
  garage : Str
  agent : Str
  city : Str
deriving DecidableEq

/-- append_to_csv (lines 37-40): the row written for a record, one value per
    header.  The data dict built by extract_detail always carries all eleven
    keys, so data.get(k, "") is the corresponding field. -/
def csvRow (r : Record) : List Str :=
  [r.mls, r.price, r.address, r.beds, r.baths, r.sqft,
   r.year_built, r.lot_size, r.garage, r.agent, r.city]

/-- request.user_data, a string-keyed dict. -/
abbrev UserData := List (Str × Str)

/-- dict.get(key, default). -/
def dictGet (d : UserData) (k default : Str) : Str :=
  match d.find? (fun kv => kv.1 == k) with
  | some kv => kv.2
  | none => default

/-- A crawlee Request as the script uses it: URL, optional label, user_data. -/
structure Request where
  url : Str
  label : Option Str
  user_data : UserData
deriving DecidableEq

/-- f"https://www.utahrealestate.com/listing/{mls}" (line 134). -/
def detail_url (mls : Str) : Str := siteBase ++ listingMarker ++ mls

/-- url.split("/listing/")[-1].split("/")[0] (line 169).  Python split of a
    nonempty string by a nonempty separator always yields a nonempty list,
    so [-1] is getLastD and [0] is headD. -/
def extract_mls (url : Str) : Str :=
  (pySplit ['/'] ((pySplit listingMarker url).getLastD [])).headD []

/-- The DOM of a detail page as extract_detail observes it: one entry per
    selector lookup, plus page.content(). -/
structure PageData where
  overview_h2 : Option Str
  location_data : Option Str
  price_span : Option Str
  beds_span : Option Str
  baths_span : Option Str
  sqft_span : Option Str
  agent_el : Option Str
  html : Str
deriving DecidableEq

/-- extract_detail (lines 162-215): the record built from the task's URL,
    its user_data, and the loaded page. -/
def extract_detail (url : Str) (ud : UserData) (pg : PageData) : Record :=
  let city := dictGet ud cityKey unknownCity
  let mls := extract_mls url
  let street := safe_text pg.overview_h2
  let city_state := safe_text pg.location_data
  let address := pyStrip stripSet (street ++ commaSpaceLit ++ city_state)
  let price := safe_text pg.price_span
  let beds := removeCommas (safe_text pg.beds_span)
  let baths := removeCommas (safe_text pg.baths_span)
  let sqft := removeCommas (safe_text pg.sqft_span)
  let year_built := (searchYearBuilt pg.html).getD []
  let lot_size := (searchLot pg.html).getD []
  let garage := (searchGarage pg.html).getD []
  let agent0 := safe_text pg.agent_el
  let agent := if agent0.isEmpty then [] else pyStripWs (collapseWs agent0)
  { mls := mls, price := price, address := address, beds := beds,
    baths := baths, sqft := sqft, year_built := year_built,
    lot_size := lot_size, garage := garage, agent := agent, city := city }

/-- A search-results page as extract_search_results observes it.  cards =
    none models the wait_for_selector timeout (the handler logs and returns);
    each card entry is its listno attribute (none for an absent attribute or
    a raised error).  next_href: none = no next control, some none = a next
    control without href, some (some h) = a next control with href h. -/
structure PageContent where
  cards : Option (List (Option Str))
  next_href : Option (Option Str)
  detail : PageData
deriving DecidableEq

/-- Process-wide crawl state: the visited_mls module global (line 18), the
    request queue, the append-only log of every request ever enqueued, and
    the rows the CSV sink received. -/
structure CrawlState where
  visited_mls : List Str
  pending : List Request
  log : List Request
  appended : List Record
deriving DecidableEq

/-- One iteration of the card loop (lines 127-145): skip falsy or
    already-seen listno values, otherwise add to visited_mls and enqueue one
    Detail request for the canonical detail URL carrying the city. -/
def processCard (city : Str) (st : CrawlState) (card : Option Str) : CrawlState :=
  match card with
  | none => st
  | some mls =>
    if mls.isEmpty || st.visited_mls.contains mls then st
    else
      let r : Request := ⟨detail_url mls, some detailLabel, [(cityKey, city)]⟩
      { st with visited_mls := mls :: st.visited_mls,
                pending := st.pending ++ [r],
                log := st.log ++ [r] }

/-- Line 152-153: resolve an href that starts with "/" against the site
    base; any other href is used verbatim. -/
def pagination_url (href : Str) : Str :=
  if ['/'].isPrefixOf href then siteBase ++ href else href

/-- The pagination block (lines 147-157): the request pushed for the
    next-page control, if any. -/
def pagination (city : Str) (next_href : Option (Option Str)) : List Request :=
  match next_href with
  | none => []
  | some none => []
  | some (some href) =>
    if !href.isEmpty && is_valid_url href then
      [⟨pagination_url href, none, [(cityKey, city)]⟩]
    else []

/-- Enqueue requests: context.add_requests appends to the queue. -/
def pushAll (st : CrawlState) (rs : List Request) : CrawlState :=
  { st with pending := st.pending ++ rs, log := st.log ++ rs }

/-- extract_search_results (lines 110-157) acting on the crawl state. -/
def extract_search_results (st : CrawlState) (req : Request) (pg : PageContent) : CrawlState :=
  let city := cityFromUrl req.url
  match pg.cards with
  | none => st
  | some cards =>
    let st1 := cards.foldl (processCard city) st
    pushAll st1 (pagination city pg.next_href)

/-- Router dispatch (lines 99-102): a request is handled by extract_detail
    when its URL contains "/listing/" or its label is "detail". -/
def routesToDetail (r : Request) : Bool :=
  strContains listingMarker r.url || r.label == some detailLabel

/-- One successful handler execution: pop the first pending request, load it
    (the supplied PageContent is what the loaded page shows), and run the
    extractor the router picks.  A detail handler appends its record to the
    CSV sink (line 214).  check_memory and the settle sleeps do not change
    this state and are modelled separately by check_memory above. -/
def crawlStep (st : CrawlState) (pg : PageContent) : CrawlState :=
  match st.pending with
  | [] => st
  | r :: rest =>
    let st' := { st with pending := rest }
    if routesToDetail r then
      { st' with appended := st'.appended ++ [extract_detail r.url r.user_data pg.detail] }
    else
      extract_search_results st' r pg

/-- The city slugs (lines 65-69). -/
def cities : List Str :=
  ["draper", "holladay", "midvale", "millcreek", "cottonwood-heights",
   "murray", "salt-lake-city", "sandy", "south-jordan", "south-salt-lake",
   "sugarhouse", "west-jordan", "west-valley"].map String.toList

/-- start_urls (lines 71-73); crawler.run wraps them as label-free requests
    with empty user_data. -/
def start_urls : List Request :=
  cities.map (fun c => ⟨siteBase ++ ['/'] ++ c ++ homesLit, none, []⟩)

/-- The state at crawl start: empty dedup set, the seeds queued. -/
def initState : CrawlState := ⟨[], start_urls, start_urls, []⟩

/-- A crawl run: the sequence of loaded page contents, consumed one per
    handler execution. -/
def crawlRun (pages : List PageContent) : CrawlState :=
  pages.foldl crawlStep initState

/-- The mls column of every row the sink received, in order. -/
def appendedMls (st : CrawlState) : List Str := st.appended.map Record.mls

/-- How many Detail tasks for identifier m were ever enqueued. -/
def detailTaskCount (m : Str) (st : CrawlState) : Nat :=
  st.log.countP (fun r => r.label == some detailLabel && r.url == detail_url m)

/-- The identifiers of the detail-routed requests of a queue, in order. -/
def detailMlsOf (rs : List Request) : List Str :=
  (rs.filter (fun r => routesToDetail r)).map (fun r => extract_mls r.url)

/-- Side conditions on one loaded page under which the sink-uniqueness
    consequence of the dedup invariant holds: every card identifier is
    slash-free, and a pushed pagination URL never contains "/listing/"
    (otherwise the router would hand a pagination request to
    extract_detail). -/
def goodPageB (pg : PageContent) : Bool :=
  ((pg.cards.getD []).all fun c => (c.getD []).all (fun ch => ch != '/'))
    && (match pg.next_href with
        | some (some href) => !(strContains listingMarker (pagination_url href))
        | _ => true)

/-- The invariant behind sink uniqueness: the mls values already appended
    plus those of still-pending detail-routed requests are pairwise distinct,
    every pending detail-routed request carries a canonical URL for a
    slash-free claimed identifier, and every appended mls was claimed. -/
def SinkInv (st : CrawlState) : Prop :=
  (appendedMls st ++ detailMlsOf st.pending).Nodup
  ∧ (∀ r ∈ st.pending, routesToDetail r = true →
      ∃ m, '/' ∉ m ∧ m ∈ st.visited_mls ∧ r.url = detail_url m)
  ∧ (∀ m ∈ appendedMls st, m ∈ st.visited_mls)

/-! Concrete example inputs used by witnesses and counterexamples. -/

/-- A page with no card content and an all-missing detail DOM. -/
def emptyPageData : PageData := ⟨none, none, none, none, none, none, none, []⟩

def pgEmpty : PageContent := ⟨none, none, emptyPageData⟩

/-- A search page whose two cards carry the listno values "a" and "a/b". -/
def pgDupCards : PageContent :=
  ⟨some [some ('a' :: []), some ('a' :: '/' :: 'b' :: [])], none, emptyPageData⟩

/-- A run: the first seed serves pgDupCards, every later handler call (the
    other twelve seeds, then the two detail tasks) serves an empty page. -/
def cexPages1 : List PageContent := pgDupCards :: List.replicate 14 pgEmpty

/-- A search page with a single card whose listno is "/x". -/
def pgSlashCard : PageContent :=
  ⟨some [some ('/' :: 'x' :: [])], none, emptyPageData⟩

def cexPages5 : List PageContent := pgSlashCard :: List.replicate 13 pgEmpty

/-- A well-formed search page: duplicate discovery of "123", one fresh
    "456", and a relative next-page link. -/
def goodPage1 : PageContent :=
  ⟨some [some ("123".toList), some ("123".toList), some ("456".toList)],
   some (some ("/draper-homes?page=2".toList)), emptyPageData⟩

def witPages1 : List PageContent := goodPage1 :: List.replicate 15 pgEmpty

/-- A detail page whose price element shows a thousands separator. -/
def pricePage : PageData := { emptyPageData with price_span := some ("450,000".toList) }

/-- A detail page whose street text ends with a comma and whose
    city/state element is missing. -/
def addrPage : PageData := { emptyPageData with overview_h2 := some ("A,".toList) }

/-! String-model lemmas. -/

theorem pySplitGo_fuel_irrel {sep : Str} :
    ∀ (f₁ f₂ : Nat) (s : Str), s.length ≤ f₁ → s.length ≤ f₂ →
      pySplitGo sep f₁ s = pySplitGo sep f₂ s := by
  intro f₁
  induction f₁ with
  | zero =>
    intro f₂ s h₁ _
    have hs : s = [] := List.length_eq_zero.mp (Nat.le_zero.mp h₁)
    subst hs
    cases f₂ <;> rfl
  | succ f ih =>
    intro f₂ s h₁ h₂
    cases s with
    | nil => cases f₂ <;> rfl
    | cons c rest =>
      cases f₂ with
      | zero => simp at h₂
      | succ f₂' =>
        simp only [List.length_cons] at h₁ h₂
        by_cases hc : (sep.isPrefixOf (c :: rest) && !sep.isEmpty) = true
        · simp only [pySplitGo, hc, if_true]
          congr 1
          exact ih f₂' _ (by simp [List.length_drop]; omega)
            (by simp [List.length_drop]; omega)
        · simp only [pySplitGo, hc, if_false]
          rw [ih f₂' rest (by omega) (by omega)]
          simp

theorem pySplitGo_no_slash {tl : Str} :
    ∀ (s : Str) (fuel : Nat), '/' ∉ s →
      pySplitGo ('/' :: tl) fuel s = [s] := by
  intro s
  induction s with
  | nil => intro fuel _; cases fuel <;> rfl
  | cons c rest ih =>
    intro fuel h
    have hc : ('/' == c) = false :=
      beq_eq_false_iff_ne.mpr (fun e => h (List.mem_cons.mpr (Or.inl e)))
    cases fuel with
    | zero => rfl
    | succ f =>
      have hpre : (('/' :: tl).isPrefixOf (c :: rest)) = false := by
        simp [List.isPrefixOf, hc]
      simp only [pySplitGo, hpre, Bool.false_and, if_false]
      rw [ih f (fun hm => h (List.mem_cons_of_mem _ hm))]
      simp

theorem isPrefixOf_append_irrel :
    ∀ (p x b : Str), p.length ≤ x.length → p.isPrefixOf (x ++ b) = p.isPrefixOf x := by
  intro p
  induction p with
  | nil => intro x b _; simp [List.isPrefixOf]
  | cons q qs ih =>
    intro x b h
    cases x with
    | nil => simp at h
    | cons c xs =>
      simp only [List.cons_append]
      show (q == c && qs.isPrefixOf (xs ++ b)) = (q == c && qs.isPrefixOf xs)
      rw [ih xs b (by simp only [List.length_cons] at h; omega)]

theorem pySplitGo_block {sep : Str} (hsep : sep ≠ []) :
    ∀ (a : Str) (fuel : Nat) (b : Str),
      (a ++ sep ++ b).length ≤ fuel →
      (∀ i, i < a.length → sep.isPrefixOf ((a ++ sep ++ b).drop i) = false) →
      pySplitGo sep fuel (a ++ sep ++ b) = a :: pySplit sep b := by
  intro a
  induction a with
  | nil =>
    intro fuel b hlen hocc
    obtain ⟨c, sep', rfl⟩ : ∃ c sep', sep = c :: sep' := by
      cases sep with
      | nil => exact absurd rfl hsep
      | cons c s' => exact ⟨c, s', rfl⟩
    simp only [List.nil_append] at hlen ⊢
    cases fuel with
    | zero => simp [List.length_append] at hlen
    | succ f =>
      have hpre : ((c :: sep').isPrefixOf (c :: (sep' ++ b))) = true := by
        rw [show c :: (sep' ++ b) = (c :: sep') ++ b from rfl]
        exact List.isPrefixOf_iff_prefix.mpr (List.prefix_append _ _)
      simp only [List.cons_append]
      simp only [pySplitGo, hpre, Bool.true_and, List.isEmpty_cons, Bool.not_false,
        Bool.and_true, if_true]
      have hdrop : (sep' ++ b).drop ((c :: sep').length - 1) = b := by
        simp only [List.length_cons, Nat.add_sub_cancel]
        exact List.drop_left sep' b
      rw [hdrop]
      congr 1
      have hblen : b.length ≤ f := by
        simp only [List.length_cons, List.length_append] at hlen
        omega
      exact pySplitGo_fuel_irrel f b.length b hblen (Nat.le_refl _)
  | cons x a' ih =>
    intro fuel b hlen hocc
    cases fuel with
    | zero =>
      exfalso
      simp [List.length_append] at hlen
    | succ f =>
      have h0 : sep.isPrefixOf (x :: (a' ++ sep ++ b)) = false := by
        have h := hocc 0 (by simp)
        simpa using h
      simp only [List.cons_append]
      simp only [pySplitGo, h0, Bool.false_and, if_false]
      rw [ih f b (by simp only [List.length_cons, List.length_append] at hlen ⊢; omega)
        (fun i hi => by
          have h := hocc (i + 1) (by simp only [List.length_cons]; omega)
          simpa using h)]
      simp

theorem pySplit_detail_url (m : Str) (hm : '/' ∉ m) :
    pySplit listingMarker (detail_url m) = [siteBase, m] := by
  have hocc : ∀ i, i < siteBase.length →
      listingMarker.isPrefixOf ((siteBase ++ listingMarker ++ m).drop i) = false := by
    intro i hi
    have hi' : i ≤ (siteBase ++ listingMarker).length := by
      simp only [List.length_append]
      have : i < siteBase.length := hi
      omega
    rw [List.drop_append_of_le_length hi']
    rw [isPrefixOf_append_irrel _ _ _ (by
      simp only [List.length_drop, List.length_append]
      have h30 : siteBase.length = 30 := by decide
      have h9 : listingMarker.length = 9 := by decide
      rw [h30] at hi
      omega)]
    exact (by decide :
      ∀ i, i < siteBase.length →
        listingMarker.isPrefixOf ((siteBase ++ listingMarker).drop i) = false) i hi
  have hb := pySplitGo_block (by decide) siteBase (detail_url m).length m (Nat.le_refl _) hocc
  have h1 : pySplit listingMarker m = [m] := by
    have he : listingMarker = '/' :: ("listing/".toList) := by decide
    rw [he]
    exact pySplitGo_no_slash m m.length hm
  calc pySplit listingMarker (detail_url m)
      = pySplitGo listingMarker (detail_url m).length (siteBase ++ listingMarker ++ m) := rfl
    _ = siteBase :: pySplit listingMarker m := hb
    _ = [siteBase, m] := by rw [h1]

theorem extract_mls_detail_url (m : Str) (hm : '/' ∉ m) :
    extract_mls (detail_url m) = m := by
  unfold extract_mls
  rw [pySplit_detail_url m hm]
  have h2 : pySplit ['/'] m = [m] := pySplitGo_no_slash m m.length hm
  simp [List.getLastD, h2]

theorem dropWhile_append_of_all {p : Char → Bool} :
    ∀ (a b : Str), (∀ c ∈ a, p c = true) → (a ++ b).dropWhile p = b.dropWhile p := by
  intro a b ha
  rw [List.dropWhile_append, if_pos]
  simp only [List.isEmpty_iff]
  exact List.dropWhile_eq_nil_iff.mpr ha

theorem pyStrip_append_of_all {charSet : Str} {y : Str}
    (hy : ∀ c ∈ y, charSet.contains c = true) (x : Str) :
    pyStrip charSet (x ++ y) = pyStrip charSet x := by
  unfold pyStrip stripBoth
  rw [List.reverse_append,
    dropWhile_append_of_all _ _ (fun c hc => hy c (List.mem_reverse.mp hc))]

theorem pyStrip_of_all_append {charSet : Str} {y : Str}
    (hy : ∀ c ∈ y, charSet.contains c = true) (x : Str) :
    pyStrip charSet (y ++ x) = pyStrip charSet x := by
  unfold pyStrip stripBoth
  rw [List.reverse_append, List.dropWhile_append]
  by_cases hx : (x.reverse.dropWhile fun c => charSet.contains c).isEmpty = true
  · rw [if_pos hx]
    simp only [List.isEmpty_iff] at hx
    rw [List.dropWhile_eq_nil_iff.mpr (fun c hc => hy c (List.mem_reverse.mp hc)), hx]
  · rw [if_neg hx]
    rw [List.reverse_append, List.reverse_reverse]
    exact dropWhile_append_of_all y _ hy

theorem isPrefixOf_pyLower {p s : Str} (hfix : ∀ c ∈ p, c.toLower = c)
    (h : p.isPrefixOf s = true) : p.isPrefixOf (pyLower s) = true := by
  obtain ⟨t, rfl⟩ := List.isPrefixOf_iff_prefix.mp h
  apply List.isPrefixOf_iff_prefix.mpr
  unfold pyLower
  rw [List.map_append]
  have hp : p.map Char.toLower = p := by
    rw [List.map_congr_left hfix]
    exact List.map_id p
  rw [hp]
  exact List.prefix_append _ _

theorem trySlugLen_sound {t : Str} :
    ∀ (k : Nat) (s : Str), trySlugLen t k = some s →
      ∃ j, 1 ≤ j ∧ j ≤ k ∧ s = t.take j ∧ homesLit.isPrefixOf (t.drop j) = true := by
  intro k
  induction k with
  | zero => intro s h; simp [trySlugLen] at h
  | succ k ih =>
    intro s h
    by_cases hp : homesLit.isPrefixOf (t.drop (k + 1)) = true
    · rw [trySlugLen, if_pos hp] at h
      exact ⟨k + 1, by omega, Nat.le_refl _, by injection h with h'; exact h'.symm, hp⟩
    · rw [trySlugLen, if_neg hp] at h
      obtain ⟨j, h1, h2, h3, h4⟩ := ih s h
      exact ⟨j, h1, by omega, h3, h4⟩

theorem searchCity_sound :
    ∀ (url s : Str), searchCity url = some s →
      ∃ a b, url = a ++ cityLit ++ s ++ homesLit ++ b ∧ s ≠ [] ∧ '/' ∉ s := by
  intro url
  induction url with
  | nil => intro s h; simp [searchCity] at h
  | cons c rest ih =>
    intro s h
    by_cases hp : cityLit.isPrefixOf (c :: rest) = true
    · rw [searchCity, if_pos hp] at h
      cases ht : trySlugLen ((c :: rest).drop cityLit.length)
          ((((c :: rest).drop cityLit.length).takeWhile (fun x => x != '/')).length) with
      | some s' =>
        rw [ht] at h
        simp only at h
        injection h with h'
        subst h'
        obtain ⟨t', hdec⟩ := List.isPrefixOf_iff_prefix.mp hp
        have hdrop : (c :: rest).drop cityLit.length = t' := by
          rw [← hdec]
          exact List.drop_left cityLit t'
        rw [hdrop] at ht
        obtain ⟨j, hj1, hj2, hj3, hj4⟩ := trySlugLen_sound _ s' ht
        obtain ⟨b, hb⟩ := List.isPrefixOf_iff_prefix.mp hj4
        refine ⟨[], b, ?_, ?_, ?_⟩
        · rw [List.nil_append, ← hdec]
          have ht' : t' = t'.take j ++ t'.drop j := (List.take_append_drop j t').symm
          rw [List.append_assoc, List.append_assoc]
          congr 1
          rw [← hj3] at ht'
          rw [hb]
          exact ht'
        · have hjlen : j ≤ t'.length := by
            have := hj2.trans ((@List.takeWhile_prefix _ t' (fun x => x != '/')).length_le)
            exact this
          have : s'.length = j := by
            rw [hj3, List.length_take]
            omega
          intro hnil
          rw [hnil] at this
          simp at this
          omega
        · intro hmem
          have hsub : s' = (t'.takeWhile (fun x => x != '/')).take j := by
            rw [hj3]
            obtain ⟨u, hu⟩ := @List.takeWhile_prefix _ t' (fun x => x != '/')
            conv_lhs => rw [← hu]
            rw [List.take_append_of_le_length hj2]
          rw [hsub] at hmem
          have hmem' := List.take_subset j _ hmem
          have := List.mem_takeWhile_imp hmem'
          simp at this
      | none =>
        rw [ht] at h
        simp only at h
        obtain ⟨a, b, hdec, hs1, hs2⟩ := ih s h
        exact ⟨c :: a, b, by rw [hdec]; simp, hs1, hs2⟩
    · rw [searchCity, if_neg hp] at h
      obtain ⟨a, b, hdec, hs1, hs2⟩ := ih s h
      exact ⟨c :: a, b, by rw [hdec]; simp, hs1, hs2⟩

theorem dictGet_of_no_key {d : UserData} {k default : Str}
    (h : ∀ kv ∈ d, kv.1 ≠ k) : dictGet d k default = default := by
  unfold dictGet
  rw [List.find?_eq_none.mpr (fun kv hkv => by
    simp only [Bool.not_eq_true, beq_eq_false_iff_ne]
    exact h kv hkv)]

/-! Crawl-run lemmas. -/

theorem extract_detail_mls (u : Str) (ud : UserData) (pg : PageData) :
    (extract_detail u ud pg).mls = extract_mls u := rfl

theorem routesToDetail_of_label {u : Str} {d : UserData} :
    routesToDetail ⟨u, some detailLabel, d⟩ = true := by
  simp [routesToDetail]

theorem detail_url_inj {m₁ m₂ : Str} (h : detail_url m₁ = detail_url m₂) : m₁ = m₂ :=
  List.append_cancel_left h

theorem detailMlsOf_append (xs ys : List Request) :
    detailMlsOf (xs ++ ys) = detailMlsOf xs ++ detailMlsOf ys := by
  simp [detailMlsOf, List.filter_append]

theorem detailMlsOf_cons_true {r : Request} {rs : List Request}
    (h : routesToDetail r = true) :
    detailMlsOf (r :: rs) = extract_mls r.url :: detailMlsOf rs := by
  simp [detailMlsOf, List.filter_cons, h]

theorem detailMlsOf_cons_false {r : Request} {rs : List Request}
    (h : routesToDetail r = false) :
    detailMlsOf (r :: rs) = detailMlsOf rs := by
  simp [detailMlsOf, List.filter_cons, h]

theorem mem_detailMlsOf {m : Str} {rs : List Request} (h : m ∈ detailMlsOf rs) :
    ∃ r ∈ rs, routesToDetail r = true ∧ extract_mls r.url = m := by
  simp only [detailMlsOf, List.mem_map, List.mem_filter] at h
  obtain ⟨r, ⟨hr, hroute⟩, hm⟩ := h
  exact ⟨r, hr, hroute, hm⟩

theorem processCard_sinkInv {city : Str} {st : CrawlState} {card : Option Str}
    (hcard : ∀ m, card = some m → '/' ∉ m) (h : SinkInv st) :
    SinkInv (processCard city st card)
    ∧ (∀ m ∈ st.visited_mls, m ∈ (processCard city st card).visited_mls)
    ∧ (processCard city st card).appended = st.appended := by
  obtain ⟨hnd, hcanon, happ⟩ := h
  cases card with
  | none => exact ⟨⟨hnd, hcanon, happ⟩, fun m hm => hm, rfl⟩
  | some mls =>
    by_cases hskip : (mls.isEmpty || st.visited_mls.contains mls) = true
    · have hstep0 : processCard city st (some mls) = st := by
        simp only [processCard]
        rw [if_pos hskip]
      rw [hstep0]
      exact ⟨⟨hnd, hcanon, happ⟩, fun m hm => hm, rfl⟩
    · have hslash : '/' ∉ mls := hcard mls rfl
      have hnotvis : mls ∉ st.visited_mls := by
        simp only [Bool.or_eq_true, not_or] at hskip
        simpa using hskip.2
      have hstep : processCard city st (some mls) =
          { st with visited_mls := mls :: st.visited_mls,
                    pending := st.pending ++ [⟨detail_url mls, some detailLabel, [(cityKey, city)]⟩],
                    log := st.log ++ [⟨detail_url mls, some detailLabel, [(cityKey, city)]⟩] } := by
        simp only [processCard]
        rw [if_neg hskip]
      rw [hstep]
      have hdm : detailMlsOf (st.pending ++ [⟨detail_url mls, some detailLabel, [(cityKey, city)]⟩])
          = detailMlsOf st.pending ++ [mls] := by
        rw [detailMlsOf_append]
        rw [detailMlsOf_cons_true routesToDetail_of_label]
        rw [show (⟨detail_url mls, some detailLabel, [(cityKey, city)]⟩ : Request).url
            = detail_url mls from rfl]
        rw [extract_mls_detail_url mls hslash]
        rfl
      refine ⟨⟨?_, ?_, ?_⟩, ?_, rfl⟩
      · show (appendedMls st ++ detailMlsOf (st.pending ++ _)).Nodup
        rw [hdm, ← List.append_assoc]
        rw [List.nodup_append]
        refine ⟨hnd, List.nodup_singleton mls, ?_⟩
        intro x hx hx'
        have hxm : x = mls := by simpa using hx'
        subst hxm
        rcases List.mem_append.mp hx with hxa | hxd
        · exact hnotvis (happ x hxa)
        · obtain ⟨r, hr, hroute, hmr⟩ := mem_detailMlsOf hxd
          obtain ⟨m', hm'1, hm'2, hm'3⟩ := hcanon r hr hroute
          rw [hm'3, extract_mls_detail_url m' hm'1] at hmr
          rw [← hmr] at hnotvis
          exact hnotvis hm'2
      · intro r hr hroute
        rcases List.mem_append.mp hr with hold | hnew
        · obtain ⟨m', hm'1, hm'2, hm'3⟩ := hcanon r hold hroute
          exact ⟨m', hm'1, List.mem_cons_of_mem _ hm'2, hm'3⟩
        · have : r = ⟨detail_url mls, some detailLabel, [(cityKey, city)]⟩ := by simpa using hnew
          subst this
          exact ⟨mls, hslash, List.mem_cons_self _ _, rfl⟩
      · intro m hm
        exact List.mem_cons_of_mem _ (happ m hm)
      · intro m hm
        exact List.mem_cons_of_mem _ hm

theorem foldCards_sinkInv {city : Str} :
    ∀ (cards : List (Option Str)) (st : CrawlState),
      (∀ c ∈ cards, ∀ m, c = some m → '/' ∉ m) → SinkInv st →
      SinkInv (cards.foldl (processCard city) st)
      ∧ (cards.foldl (processCard city) st).appended = st.appended := by
  intro cards
  induction cards with
  | nil => intro st _ h; exact ⟨h, rfl⟩
  | cons c cs ih =>
    intro st hc h
    rw [List.foldl_cons]
    obtain ⟨h1, _, h3⟩ := processCard_sinkInv (fun m hm => hc c (by simp) m hm) h
    obtain ⟨h4, h5⟩ := ih _ (fun c' hc' m hm => hc c' (by simp [hc']) m hm) h1
    exact ⟨h4, by rw [h5, h3]⟩

theorem pagination_sinkInv {city : Str} {st : CrawlState} {nh : Option (Option Str)}
    (hg : ∀ href, nh = some (some href) →
      strContains listingMarker (pagination_url href) = false)
    (h : SinkInv st) : SinkInv (pushAll st (pagination city nh)) := by
  obtain ⟨hnd, hcanon, happ⟩ := h
  have hgen : ∀ rs : List Request,
      (∀ r ∈ rs, routesToDetail r = false) → SinkInv (pushAll st rs) := by
    intro rs hrs
    refine ⟨?_, ?_, happ⟩
    · show (appendedMls st ++ detailMlsOf (st.pending ++ rs)).Nodup
      rw [detailMlsOf_append]
      have : detailMlsOf rs = [] := by
        simp only [detailMlsOf, List.map_eq_nil_iff, List.filter_eq_nil_iff]
        intro r hr
        simp [hrs r hr]
      rw [this, List.append_nil]
      exact hnd
    · intro r hr hroute
      rcases List.mem_append.mp hr with hold | hnew
      · exact hcanon r hold hroute
      · rw [hrs r hnew] at hroute
        cases hroute
  cases nh with
  | none =>
    apply hgen
    intro r hr
    simp [pagination] at hr
  | some o =>
    cases o with
    | none =>
      apply hgen
      intro r hr
      simp [pagination] at hr
    | some href =>
      apply hgen
      intro r hr
      simp only [pagination] at hr
      by_cases hv : (!href.isEmpty && is_valid_url href) = true
      · rw [if_pos hv] at hr
        have : r = ⟨pagination_url href, none, [(cityKey, city)]⟩ := by simpa using hr
        subst this
        simp [routesToDetail, hg href rfl]
      · rw [if_neg hv] at hr
        cases hr

theorem crawlStep_sinkInv {st : CrawlState} {pg : PageContent}
    (hpg : goodPageB pg = true) (h : SinkInv st) : SinkInv (crawlStep st pg) := by
  have hgb := hpg
  rw [goodPageB, Bool.and_eq_true] at hgb
  obtain ⟨hcards_all, hnexth⟩ := hgb
  have hcards : ∀ (cs : List (Option Str)), pg.cards = some cs →
      ∀ c ∈ cs, ∀ m, c = some m → '/' ∉ m := by
    intro cs hcs c hc m hm hslash
    rw [hcs] at hcards_all
    simp only [Option.getD_some, List.all_eq_true] at hcards_all
    have h1 := hcards_all c hc
    rw [hm] at h1
    simp only [Option.getD_some, List.all_eq_true] at h1
    have h2 := h1 '/' hslash
    simp at h2
  have hnext : ∀ href, pg.next_href = some (some href) →
      strContains listingMarker (pagination_url href) = false := by
    intro href hh
    rw [hh] at hnexth
    simpa using hnexth
  obtain ⟨hnd, hcanon, happ⟩ := h
  rcases hpend : st.pending with _ | ⟨r, rest⟩
  · rw [show crawlStep st pg = st from by simp [crawlStep, hpend]]
    exact ⟨hnd, hcanon, happ⟩
  · rw [hpend] at hnd hcanon
    by_cases hroute : routesToDetail r = true
    · obtain ⟨m, hm1, hm2, hm3⟩ := hcanon r (by simp) hroute
      have hstep : crawlStep st pg =
          { st with pending := rest,
                    appended := st.appended ++ [extract_detail r.url r.user_data pg.detail] } := by
        simp [crawlStep, hpend, hroute]
      rw [hstep]
      have hmls : extract_mls r.url = m := by
        rw [hm3]
        exact extract_mls_detail_url m hm1
      refine ⟨?_, ?_, ?_⟩
      · show ((st.appended ++ [extract_detail r.url r.user_data pg.detail]).map Record.mls
            ++ detailMlsOf rest).Nodup
        rw [List.map_append]
        rw [show [extract_detail r.url r.user_data pg.detail].map Record.mls
            = [m] from by simp [extract_detail_mls, hmls]]
        rw [List.append_assoc]
        rw [show ([m] : List Str) ++ detailMlsOf rest = m :: detailMlsOf rest from rfl]
        rw [detailMlsOf_cons_true hroute, hmls] at hnd
        exact hnd
      · intro r' hr' hroute'
        exact hcanon r' (List.mem_cons_of_mem _ hr') hroute'
      · intro m' hm'
        show m' ∈ st.visited_mls
        simp only [appendedMls, List.map_append] at hm'
        rcases List.mem_append.mp hm' with hma | hmb
        · exact happ m' hma
        · simp only [List.map_cons, List.map_nil, List.mem_singleton,
            extract_detail_mls, hmls] at hmb
          rw [hmb]
          exact hm2
    · have hroutef : routesToDetail r = false := by
        cases hx : routesToDetail r with
        | true => exact absurd hx hroute
        | false => rfl
      have hstep : crawlStep st pg =
          extract_search_results { st with pending := rest } r pg := by
        simp [crawlStep, hpend, hroutef]
      rw [hstep]
      have hst' : SinkInv { st with pending := rest } := by
        refine ⟨?_, ?_, happ⟩
        · show (appendedMls st ++ detailMlsOf rest).Nodup
          rw [detailMlsOf_cons_false hroutef] at hnd
          exact hnd
        · intro r' hr' hroute'
          exact hcanon r' (List.mem_cons_of_mem _ hr') hroute'
      rcases hcs : pg.cards with _ | cs
      · rw [show extract_search_results { st with pending := rest } r pg
            = { st with pending := rest } from by
          simp [extract_search_results, hcs]]
        exact hst'
      · have hstep2 : extract_search_results { st with pending := rest } r pg
            = pushAll (cs.foldl (processCard (cityFromUrl r.url)) { st with pending := rest })
                (pagination (cityFromUrl r.url) pg.next_href) := by
          simp [extract_search_results, hcs]
        rw [hstep2]
        obtain ⟨hfold, _⟩ := foldCards_sinkInv cs _ (hcards cs hcs) hst'
        exact pagination_sinkInv hnext hfold

theorem initState_sinkInv : SinkInv initState := by
  refine ⟨?_, ?_, ?_⟩
  · have hd : detailMlsOf start_urls = [] := by decide
    show (appendedMls initState ++ detailMlsOf start_urls).Nodup
    rw [hd]
    simp [appendedMls, initState]
  · intro r hr hroute
    have hall : ∀ r ∈ start_urls, routesToDetail r = false := by decide
    rw [hall r hr] at hroute
    cases hroute
  · intro m hm
    simp [appendedMls, initState] at hm

theorem crawlRun_sinkInv (pages : List PageContent)
    (hp : ∀ pg ∈ pages, goodPageB pg = true) : SinkInv (crawlRun pages) := by
  have hgen : ∀ (ps : List PageContent) (st : CrawlState),
      (∀ pg ∈ ps, goodPageB pg = true) → SinkInv st →
      SinkInv (ps.foldl crawlStep st) := by
    intro ps
    induction ps with
    | nil => intro st _ h; exact h
    | cons p ps ih =>
      intro st hps h
      rw [List.foldl_cons]
      exact ih _ (fun pg hpg => hps pg (by simp [hpg]))
        (crawlStep_sinkInv (hps p (by simp)) h)
  exact hgen pages initState hp initState_sinkInv

theorem detailTaskCount_processCard {m city : Str} {st : CrawlState} {card : Option Str}
    (h : detailTaskCount m st = if m ∈ st.visited_mls then 1 else 0) :
    detailTaskCount m (processCard city st card)
      = if m ∈ (processCard city st card).visited_mls then 1 else 0 := by
  cases card with
  | none => exact h
  | some mls =>
    by_cases hskip : (mls.isEmpty || st.visited_mls.contains mls) = true
    · have hstep0 : processCard city st (some mls) = st := by
        simp only [processCard]
        rw [if_pos hskip]
      rw [hstep0]
      exact h
    · have hstep : processCard city st (some mls) =
          { st with visited_mls := mls :: st.visited_mls,
                    pending := st.pending ++ [⟨detail_url mls, some detailLabel, [(cityKey, city)]⟩],
                    log := st.log ++ [⟨detail_url mls, some detailLabel, [(cityKey, city)]⟩] } := by
        simp only [processCard]
        rw [if_neg hskip]
      rw [hstep]
      have hnotvis : mls ∉ st.visited_mls := by
        simp only [Bool.or_eq_true, not_or] at hskip
        simpa using hskip.2
      show (st.log ++ [(⟨detail_url mls, some detailLabel, [(cityKey, city)]⟩ : Request)]).countP _
          = if m ∈ mls :: st.visited_mls then 1 else 0
      rw [List.countP_append]
      by_cases hm : mls = m
      · subst hm
        have hone : List.countP
            (fun (r : Request) => r.label == some detailLabel && r.url == detail_url mls)
            [⟨detail_url mls, some detailLabel, [(cityKey, city)]⟩] = 1 := by
          simp
        rw [show detailTaskCount mls st = st.log.countP
            (fun (r : Request) => r.label == some detailLabel && r.url == detail_url mls)
          from rfl] at h
        rw [hone, h, if_neg hnotvis, if_pos (List.mem_cons_self _ _)]
      · have hzero : List.countP
            (fun (r : Request) => r.label == some detailLabel && r.url == detail_url m)
            [⟨detail_url mls, some detailLabel, [(cityKey, city)]⟩] = 0 := by
          have hne : (detail_url mls == detail_url m) = false :=
            beq_eq_false_iff_ne.mpr (fun e => hm (detail_url_inj e))
          simp [hne]
        rw [show detailTaskCount m st = st.log.countP
            (fun (r : Request) => r.label == some detailLabel && r.url == detail_url m)
          from rfl] at h
        rw [hzero, h]
        have hmem : (m ∈ mls :: st.visited_mls) ↔ m ∈ st.visited_mls := by
          constructor
          · intro hx
            rcases List.mem_cons.mp hx with he | hx'
            · exact absurd he.symm hm
            · exact hx'
          · exact fun hx => List.mem_cons_of_mem _ hx
        by_cases hv : m ∈ st.visited_mls
        · rw [if_pos hv, if_pos (hmem.mpr hv)]
        · rw [if_neg hv, if_neg (fun hx => hv (hmem.mp hx))]

theorem detailTaskCount_foldCards {m city : Str} :
    ∀ (cards : List (Option Str)) (st : CrawlState),
      detailTaskCount m st = (if m ∈ st.visited_mls then 1 else 0) →
      detailTaskCount m (cards.foldl (processCard city) st)
        = if m ∈ (cards.foldl (processCard city) st).visited_mls then 1 else 0 := by
  intro cards
  induction cards with
  | nil => intro st h; exact h
  | cons c cs ih =>
    intro st h
    rw [List.foldl_cons]
    exact ih _ (detailTaskCount_processCard h)

theorem detailTaskCount_pushAll {m : Str} {st : CrawlState} {rs : List Request}
    (hrs : ∀ r ∈ rs, r.label = none)
    (h : detailTaskCount m st = if m ∈ st.visited_mls then 1 else 0) :
    detailTaskCount m (pushAll st rs)
      = if m ∈ (pushAll st rs).visited_mls then 1 else 0 := by
  show (st.log ++ rs).countP _ = if m ∈ st.visited_mls then 1 else 0
  rw [List.countP_append]
  have hz : rs.countP (fun r => r.label == some detailLabel && r.url == detail_url m) = 0 := by
    rw [List.countP_eq_zero]
    intro r hr
    simp [hrs r hr]
  rw [hz, Nat.add_zero]
  exact h

theorem detailTaskCount_crawlStep {m : Str} {st : CrawlState} {pg : PageContent}
    (h : detailTaskCount m st = if m ∈ st.visited_mls then 1 else 0) :
    detailTaskCount m (crawlStep st pg)
      = if m ∈ (crawlStep st pg).visited_mls then 1 else 0 := by
  rcases hpend : st.pending with _ | ⟨r, rest⟩
  · rw [show crawlStep st pg = st from by simp [crawlStep, hpend]]
    exact h
  · by_cases hroute : routesToDetail r = true
    · have hstep : crawlStep st pg =
          { st with pending := rest,
                    appended := st.appended ++ [extract_detail r.url r.user_data pg.detail] } := by
        simp [crawlStep, hpend, hroute]
      rw [hstep]
      exact h
    · have hroutef : routesToDetail r = false := by
        cases hx : routesToDetail r with
        | true => exact absurd hx hroute
        | false => rfl
      have hstep : crawlStep st pg =
          extract_search_results { st with pending := rest } r pg := by
        simp [crawlStep, hpend, hroutef]
      rw [hstep]
      rcases hcs : pg.cards with _ | cs
      · rw [show extract_search_results { st with pending := rest } r pg
            = { st with pending := rest } from by simp [extract_search_results, hcs]]
        exact h
      · rw [show extract_search_results { st with pending := rest } r pg
            = pushAll (cs.foldl (processCard (cityFromUrl r.url)) { st with pending := rest })
                (pagination (cityFromUrl r.url) pg.next_href) from by
          simp [extract_search_results, hcs]]
        apply detailTaskCount_pushAll
        · intro r' hr'
          rcases hnh : pg.next_href with _ | o
          · simp [pagination, hnh] at hr'
          · rcases o with _ | href
            · simp [pagination, hnh] at hr'
            · simp only [pagination, hnh] at hr'
              by_cases hv : (!href.isEmpty && is_valid_url href) = true
              · rw [if_pos hv] at hr'
                have hre : r' = (⟨pagination_url href, none,
                    [(cityKey, cityFromUrl r.url)]⟩ : Request) := by
                  simpa using hr'
                rw [hre]
              · rw [if_neg hv] at hr'
                cases hr'
        · exact detailTaskCount_foldCards cs _ h

theorem detailTaskCount_crawlRun (pages : List PageContent) (m : Str) :
    detailTaskCount m (crawlRun pages)
      = if m ∈ (crawlRun pages).visited_mls then 1 else 0 := by
  have hinit : detailTaskCount m initState = if m ∈ initState.visited_mls then 1 else 0 := by
    have hz : start_urls.countP
        (fun r => r.label == some detailLabel && r.url == detail_url m) = 0 := by
      rw [List.countP_eq_zero]
      intro r hr
      have hlab : ∀ r ∈ start_urls, r.label = none := by decide
      simp [hlab r hr]
    show start_urls.countP _ = if m ∈ ([] : List Str) then 1 else 0
    rw [hz]
    simp
  have hgen : ∀ (ps : List PageContent) (st : CrawlState),
      detailTaskCount m st = (if m ∈ st.visited_mls then 1 else 0) →
      detailTaskCount m (ps.foldl crawlStep st)
        = if m ∈ (ps.foldl crawlStep st).visited_mls then 1 else 0 := by
    intro ps
    induction ps with
    | nil => intro st h; exact h
    | cons p ps ih =>
      intro st h
      rw [List.foldl_cons]
      exact ih _ (detailTaskCount_crawlStep h)
  exact hgen pages initState hinit

theorem is_valid_url_false_of_bad {p href : Str}
    (hp : p ∈ schemeBlocklist) (hfix : ∀ c ∈ p, c.toLower = c)
    (h : p.isPrefixOf href = true) : is_valid_url href = false := by
  have hlow : p.isPrefixOf (pyLower href) = true := isPrefixOf_pyLower hfix h
  unfold is_valid_url
  by_cases he : href.isEmpty = true
  · rw [if_pos he]
  · rw [if_neg he]
    have hany : (schemeBlocklist.any fun q => q.isPrefixOf (pyLower href)) = true :=
      List.any_eq_true.mpr ⟨p, hp, hlow⟩
    rw [hany]
    rfl

theorem pagination_of_invalid {city href : Str} (h : is_valid_url href = false) :
    pagination city (some (some href)) = [] := by
  simp only [pagination]
  rw [if_neg]
  simp [h]

/-! Claim theorems. -/

/-- C1, counterexample.  In a crawl run whose first search-results page shows
    two cards with the listno values "a" and "a/b", both identifiers are
    claimed exactly once and one Detail task is enqueued for each, yet the
    record sink receives the mls value "a" twice within the run: the task URL
    for "a/b" is https://www.utahrealestate.com/listing/a/b, and
    extract_detail derives the mls "a" from it.  The claim's consequence that
    the RecordSink never receives two appends with the same mls is false. -/
theorem claim1_dedup_counterexample :
    appendedMls (crawlRun cexPages1) = [['a'], ['a']]
    ∧ ¬(appendedMls (crawlRun cexPages1)).Nodup := by
  exact ⟨by decide, by decide⟩

/-- C1, amended.  For every identifier m, the number of Detail tasks ever
    enqueued for m over a whole crawl run is one if m was claimed into the
    dedup set and zero otherwise; re-discovery of an already claimed
    identifier is a no-op; and the sink never receives two appends with the
    same mls provided every discovered identifier is slash-free and no
    pushed pagination URL contains the substring "/listing/". -/
theorem claim1_dedup_amended :
    (∀ (pages : List PageContent) (m : Str),
        detailTaskCount m (crawlRun pages)
          = if m ∈ (crawlRun pages).visited_mls then 1 else 0)
    ∧ (∀ (city : Str) (st : CrawlState) (m : Str),
        m ∈ st.visited_mls → processCard city st (some m) = st)
    ∧ (∀ pages : List PageContent, (∀ pg ∈ pages, goodPageB pg = true) →
        (appendedMls (crawlRun pages)).Nodup) := by
  refine ⟨detailTaskCount_crawlRun, ?_, ?_⟩
  · intro city st m hm
    have hc : st.visited_mls.contains m = true := by simpa using hm
    simp only [processCard]
    rw [if_pos (by rw [hc, Bool.or_true])]
  · intro pages hp
    obtain ⟨hnd, -, -⟩ := crawlRun_sinkInv pages hp
    exact (List.nodup_append.mp hnd).1

/-- C1, witness for the amended theorem at a concrete run: the first seed
    serves a page discovering "123" twice and "456" once plus a valid
    next-page link; exactly one Detail task for "123" is enqueued and the
    sink rows carry pairwise distinct mls values. -/
theorem claim1_dedup_amended_witness :
    detailTaskCount ("123".toList) (crawlRun witPages1)
      = (if ("123".toList) ∈ (crawlRun witPages1).visited_mls then 1 else 0)
    ∧ (appendedMls (crawlRun witPages1)).Nodup :=
  ⟨claim1_dedup_amended.1 witPages1 ("123".toList),
   claim1_dedup_amended.2.2 witPages1 (by decide)⟩

/-- C2.  check_memory signals fatal (raises MemoryError) exactly when the
    sampled resident memory strictly exceeds 0.9 of the 7 GB ceiling, and
    returns the measured value otherwise; at the failing input 6.4 GB — which
    is still below the ceiling itself — the guard does signal.  The
    crawl-abort half of the claim is decided by the crawlee framework's
    handler-error policy, outside this script; see the result notes. -/
theorem claim2_memory_guard :
    (∀ mem_gb : ℚ, check_memory mem_gb = none ↔ mem_gb > MAX_MEMORY_GB * (9 / 10))
    ∧ check_memory (32 / 5) = none ∧ (32 / 5 : ℚ) ≤ MAX_MEMORY_GB := by
  have hkey : ∀ mem_gb : ℚ, check_memory mem_gb = none ↔ mem_gb > MAX_MEMORY_GB * (9 / 10) := by
    intro m
    by_cases h : m > MAX_MEMORY_GB * (9 / 10)
    · simp [check_memory, h]
    · simp [check_memory, h]
  refine ⟨hkey, ?_, by norm_num [MAX_MEMORY_GB]⟩
  exact (hkey _).mpr (by norm_num [MAX_MEMORY_GB])

/-- C3, counterexample.  With a price element showing "450,000", the emitted
    price keeps the comma: it differs from the element text with commas
    removed, so the claim fails for the price field. -/
theorem claim3_summary_counterexample :
    (extract_detail (detail_url ('1' :: [])) [] pricePage).price = "450,000".toList
    ∧ (extract_detail (detail_url ('1' :: [])) [] pricePage).price
        ≠ removeCommas (safe_text pricePage.price_span) := by
  exact ⟨by decide, by decide⟩

/-- C3, amended.  beds, baths and sqft equal the extracted element text with
    every comma removed and nothing else applied; price equals the extracted
    element text itself, with no comma removal and no other transformation. -/
theorem claim3_summary_amended :
    ∀ (url : Str) (ud : UserData) (pg : PageData),
      (extract_detail url ud pg).price = safe_text pg.price_span
      ∧ (extract_detail url ud pg).beds = removeCommas (safe_text pg.beds_span)
      ∧ (extract_detail url ud pg).baths = removeCommas (safe_text pg.baths_span)
      ∧ (extract_detail url ud pg).sqft = removeCommas (safe_text pg.sqft_span) :=
  fun _ _ _ => ⟨rfl, rfl, rfl, rfl⟩

/-- C4.  With a next-page control present: an empty href, or one starting
    with javascript:, mailto:, tel:, or #, pushes nothing; each of the three
    concrete hrefs of the claim pushes nothing; and "/draper-homes?page=2" is
    resolved against the site base and exactly one label-free (Search)
    request is pushed for it carrying the same city. -/
theorem claim4_next_page_validation :
    (∀ (city href : Str),
        (href = []
          ∨ ("javascript:".toList).isPrefixOf href = true
          ∨ ("mailto:".toList).isPrefixOf href = true
          ∨ ("tel:".toList).isPrefixOf href = true
          ∨ (['#']).isPrefixOf href = true) →
        pagination city (some (some href)) = [])
    ∧ (∀ city : Str,
        pagination city (some (some ("javascript:void(0)".toList))) = []
        ∧ pagination city (some (some ("#top".toList))) = []
        ∧ pagination city (some (some ("mailto:x@y.com".toList))) = []
        ∧ pagination city (some (some ("/draper-homes?page=2".toList)))
            = [⟨"https://www.utahrealestate.com/draper-homes?page=2".toList,
                none, [(cityKey, city)]⟩]) := by
  constructor
  · intro city href h
    rcases h with h | h | h | h | h
    · subst h
      rfl
    · exact pagination_of_invalid (is_valid_url_false_of_bad (by decide) (by decide) h)
    · exact pagination_of_invalid (is_valid_url_false_of_bad (by decide) (by decide) h)
    · exact pagination_of_invalid (is_valid_url_false_of_bad (by decide) (by decide) h)
    · exact pagination_of_invalid (is_valid_url_false_of_bad (by decide) (by decide) h)
  · intro city
    exact ⟨rfl, rfl, rfl, rfl⟩

/-- C4, witness: the rejected scheme prefix clause applied at tel:123. -/
theorem claim4_next_page_validation_witness :
    pagination ("draper".toList) (some (some ("tel:123".toList))) = [] :=
  claim4_next_page_validation.1 ("draper".toList) ("tel:123".toList)
    (Or.inr (Or.inr (Or.inr (Or.inl (by decide)))))

/-- C5, counterexample.  A crawl run whose first search page shows a card
    with listno "/x" forwards a record to the sink whose mls is the empty
    string: the synthesized URL is
    https://www.utahrealestate.com/listing//x and the segment after
    "/listing/" is empty.  The claim's unconditional "non-empty mls" fails. -/
theorem claim5_record_counterexample :
    appendedMls (crawlRun cexPages5) = [[]] := by decide

/-- C5, amended.  Every record has exactly the eleven string fields in the
    fixed order, each individually failed extraction yields the empty string
    without affecting the others, mls always equals the URL segment after
    "/listing/", and for a task made from a non-empty slash-free identifier
    the mls is that identifier (hence non-empty) even when every optional
    element of the page is missing: the record is still emitted, with empty
    strings everywhere else and the city carried in user_data. -/
theorem claim5_record_amended :
    (∀ (url : Str) (ud : UserData) (pg : PageData),
        (csvRow (extract_detail url ud pg)).length = 11
        ∧ (extract_detail url ud pg).mls = extract_mls url
        ∧ (pg.overview_h2 = none → pg.location_data = none →
            (extract_detail url ud pg).address = [])
        ∧ (pg.price_span = none → (extract_detail url ud pg).price = [])
        ∧ (pg.beds_span = none → (extract_detail url ud pg).beds = [])
        ∧ (pg.baths_span = none → (extract_detail url ud pg).baths = [])
        ∧ (pg.sqft_span = none → (extract_detail url ud pg).sqft = [])
        ∧ (searchYearBuilt pg.html = none → (extract_detail url ud pg).year_built = [])
        ∧ (searchLot pg.html = none → (extract_detail url ud pg).lot_size = [])
        ∧ (searchGarage pg.html = none → (extract_detail url ud pg).garage = [])
        ∧ (pg.agent_el = none → (extract_detail url ud pg).agent = []))
    ∧ (∀ (mls : Str) (ud : UserData), mls ≠ [] → '/' ∉ mls →
        csvRow (extract_detail (detail_url mls) ud emptyPageData)
          = [mls, [], [], [], [], [], [], [], [], [], dictGet ud cityKey unknownCity]
        ∧ (extract_detail (detail_url mls) ud emptyPageData).mls ≠ []) := by
  constructor
  · intro url ud pg
    refine ⟨rfl, rfl, ?_, ?_, ?_, ?_, ?_, ?_, ?_, ?_, ?_⟩
    · intro h1 h2
      show pyStrip stripSet
          (safe_text pg.overview_h2 ++ commaSpaceLit ++ safe_text pg.location_data) = []
      rw [h1, h2]
      decide
    · intro h
      show safe_text pg.price_span = []
      rw [h]
      rfl
    · intro h
      show removeCommas (safe_text pg.beds_span) = []
      rw [h]
      rfl
    · intro h
      show removeCommas (safe_text pg.baths_span) = []
      rw [h]
      rfl
    · intro h
      show removeCommas (safe_text pg.sqft_span) = []
      rw [h]
      rfl
    · intro h
      show (searchYearBuilt pg.html).getD [] = []
      rw [h]
      rfl
    · intro h
      show (searchLot pg.html).getD [] = []
      rw [h]
      rfl
    · intro h
      show (searchGarage pg.html).getD [] = []
      rw [h]
      rfl
    · intro h
      show (if (safe_text pg.agent_el).isEmpty then ([] : Str)
          else pyStripWs (collapseWs (safe_text pg.agent_el))) = []
      rw [h]
      rfl
  · intro mls ud hne hslash
    have hmls : (extract_detail (detail_url mls) ud emptyPageData).mls = mls := by
      rw [extract_detail_mls]
      exact extract_mls_detail_url mls hslash
    constructor
    · have hrow : csvRow (extract_detail (detail_url mls) ud emptyPageData)
          = [extract_mls (detail_url mls), [], [], [], [], [], [], [], [], [],
             dictGet ud cityKey unknownCity] := rfl
      rw [hrow, extract_mls_detail_url mls hslash]
    · rw [hmls]
      exact hne

/-- C5, witness for the amended theorem at the identifier "12345" with empty
    user_data and the all-missing page. -/
theorem claim5_record_amended_witness :
    csvRow (extract_detail (detail_url ("12345".toList)) [] emptyPageData)
      = ["12345".toList, [], [], [], [], [], [], [], [], [],
         dictGet [] cityKey unknownCity]
    ∧ (extract_detail (detail_url ("12345".toList)) [] emptyPageData).mls ≠ [] :=
  claim5_record_amended.2 ("12345".toList) [] (by decide) (by decide)

/-- C6.  Round trip of the listing identifier: for every non-empty
    slash-free identifier, extracting the mls from the synthesized canonical
    detail URL returns exactly the identifier. -/
theorem claim6_mls_roundtrip :
    ∀ mls : Str, mls ≠ [] → '/' ∉ mls → extract_mls (detail_url mls) = mls :=
  fun mls _ h => extract_mls_detail_url mls h

/-- C6, witness at the identifier "12345". -/
theorem claim6_mls_roundtrip_witness :
    extract_mls (detail_url ("12345".toList)) = "12345".toList :=
  claim6_mls_roundtrip ("12345".toList) (by decide) (by decide)

/-- C7, counterexample.  With street text "A," and a missing city/state
    element, the address is "A", not the component "A,": the final strip
    also eats separators belonging to the component itself, so the claim's
    one-empty-component case fails as stated. -/
theorem claim7_address_counterexample :
    (extract_detail (detail_url ("1".toList)) [] addrPage).address = ['A']
    ∧ safe_text addrPage.overview_h2 = "A,".toList
    ∧ (extract_detail (detail_url ("1".toList)) [] addrPage).address
        ≠ safe_text addrPage.overview_h2 := by
  exact ⟨by decide, by decide, by decide⟩

/-- C7, amended.  The address equals the two components joined by ", " and
    stripped of leading and trailing spaces and commas; when both components
    are empty it is empty, and when exactly one component is empty it equals
    the other component stripped of its own leading and trailing spaces and
    commas. -/
theorem claim7_address_amended :
    ∀ (url : Str) (ud : UserData) (pg : PageData),
      (extract_detail url ud pg).address
        = pyStrip stripSet
            (safe_text pg.overview_h2 ++ commaSpaceLit ++ safe_text pg.location_data)
      ∧ (safe_text pg.overview_h2 = [] → safe_text pg.location_data = [] →
          (extract_detail url ud pg).address = [])
      ∧ (safe_text pg.location_data = [] →
          (extract_detail url ud pg).address = pyStrip stripSet (safe_text pg.overview_h2))
      ∧ (safe_text pg.overview_h2 = [] →
          (extract_detail url ud pg).address = pyStrip stripSet (safe_text pg.location_data)) := by
  intro url ud pg
  have hsep : ∀ c ∈ commaSpaceLit, stripSet.contains c = true := by decide
  refine ⟨rfl, ?_, ?_, ?_⟩
  · intro h1 h2
    show pyStrip stripSet
        (safe_text pg.overview_h2 ++ commaSpaceLit ++ safe_text pg.location_data) = []
    rw [h1, h2]
    decide
  · intro h2
    show pyStrip stripSet
        (safe_text pg.overview_h2 ++ commaSpaceLit ++ safe_text pg.location_data)
      = pyStrip stripSet (safe_text pg.overview_h2)
    rw [h2, List.append_nil]
    exact pyStrip_append_of_all hsep _
  · intro h1
    show pyStrip stripSet
        (safe_text pg.overview_h2 ++ commaSpaceLit ++ safe_text pg.location_data)
      = pyStrip stripSet (safe_text pg.location_data)
    rw [h1, List.nil_append]
    exact pyStrip_of_all_append hsep _

/-- C7, witness for the amended theorem: both components missing gives the
    empty address. -/
theorem claim7_address_amended_witness :
    (extract_detail (detail_url ("1".toList)) [] emptyPageData).address = [] :=
  (claim7_address_amended (detail_url ("1".toList)) [] emptyPageData).2.1 rfl rfl

/-- C8.  is_valid_url returns false exactly for the empty string and for
    strings whose lowercased form starts with one of javascript:, mailto:,
    tel:, #, and returns true for every other string; in particular
    "JavaScript:void(0)" is rejected. -/
theorem claim8_is_valid_url :
    (∀ url : Str,
        is_valid_url url = false ↔
          (url = [] ∨ ∃ p ∈ schemeBlocklist, p.isPrefixOf (pyLower url) = true))
    ∧ is_valid_url ("JavaScript:void(0)".toList) = false
    ∧ is_valid_url [] = false := by
  refine ⟨?_, by decide, by decide⟩
  intro url
  unfold is_valid_url
  by_cases he : url.isEmpty = true
  · rw [if_pos he]
    simp only [List.isEmpty_iff] at he
    simp [he]
  · rw [if_neg he]
    simp only [List.isEmpty_iff] at he
    constructor
    · intro h
      right
      have hany : (schemeBlocklist.any fun p => p.isPrefixOf (pyLower url)) = true := by
        simpa using h
      exact List.any_eq_true.mp hany
    · intro h
      rcases h with h | ⟨p, hp, hpp⟩
      · exact absurd h he
      · have hany : (schemeBlocklist.any fun p => p.isPrefixOf (pyLower url)) = true :=
          List.any_eq_true.mpr ⟨p, hp, hpp⟩
        rw [hany]
        rfl

/-- C8, witness: the case-insensitivity clause applied to
    "JavaScript:void(0)". -/
theorem claim8_is_valid_url_witness :
    is_valid_url ("JavaScript:void(0)".toList) = false :=
  (claim8_is_valid_url.1 ("JavaScript:void(0)".toList)).mpr
    (Or.inr ⟨"javascript:".toList, by decide, by decide⟩)

/-- C9.  For every valid href, exactly one request is pushed, whose URL is
    the href prefixed with the site base when it starts with "/", and the
    href verbatim otherwise — no resolution against the current page URL;
    concretely, the relative href "page2.html" and an absolute href are
    pushed verbatim. -/
theorem claim9_href_resolution :
    (∀ (city href : Str), is_valid_url href = true →
        pagination city (some (some href))
          = [⟨if (['/']).isPrefixOf href then siteBase ++ href else href,
              none, [(cityKey, city)]⟩])
    ∧ (∀ city : Str,
        pagination city (some (some ("page2.html".toList)))
          = [⟨"page2.html".toList, none, [(cityKey, city)]⟩]
        ∧ pagination city (some (some ("https://example.com/p2".toList)))
          = [⟨"https://example.com/p2".toList, none, [(cityKey, city)]⟩]) := by
  constructor
  · intro city href hv
    have hne : href.isEmpty = false := by
      cases href with
      | nil => rw [show is_valid_url [] = false from rfl] at hv; cases hv
      | cons c cs => rfl
    simp only [pagination]
    rw [if_pos (by rw [hne, hv]; rfl)]
    rfl
  · intro city
    exact ⟨rfl, rfl⟩

/-- C9, witness at the relative href "page2.html". -/
theorem claim9_href_resolution_witness :
    pagination ("draper".toList) (some (some ("page2.html".toList)))
      = [⟨if (['/']).isPrefixOf ("page2.html".toList)
            then siteBase ++ "page2.html".toList else "page2.html".toList,
          none, [(cityKey, "draper".toList)]⟩] :=
  claim9_href_resolution.1 ("draper".toList) ("page2.html".toList) (by decide)

/-- C10.  When a page URL admits no decomposition matching the pattern
    utahrealestate\.com/([^/]+)-homes, the extracted city is the literal
    "unknown"; and when a detail task's user_data has no "city" key, the
    record's city field is the literal "unknown". -/
theorem claim10_city_unknown :
    (∀ url : Str,
        (¬∃ a s b, url = a ++ cityLit ++ s ++ homesLit ++ b ∧ s ≠ [] ∧ '/' ∉ s) →
        cityFromUrl url = unknownCity)
    ∧ (∀ (url : Str) (ud : UserData) (pg : PageData),
        (∀ kv ∈ ud, kv.1 ≠ cityKey) →
        (extract_detail url ud pg).city = unknownCity) := by
  constructor
  · intro url h
    cases hs : searchCity url with
    | none => simp [cityFromUrl, hs]
    | some s =>
      obtain ⟨a, b, hdec, h1, h2⟩ := searchCity_sound url s hs
      exact absurd ⟨a, s, b, hdec, h1, h2⟩ h
  · intro url ud pg h
    show dictGet ud cityKey unknownCity = unknownCity
    exact dictGet_of_no_key h

/-- C10, witness: a URL too short to contain the pattern, and an empty
    user_data dict. -/
theorem claim10_city_unknown_witness :
    cityFromUrl ("https://example.com/p".toList) = unknownCity
    ∧ (extract_detail (detail_url ("1".toList)) [] emptyPageData).city = unknownCity := by
  constructor
  · apply claim10_city_unknown.1
    rintro ⟨a, s, b, hdec, hs, -⟩
    have hlen := congrArg List.length hdec
    have h19 : cityLit.length = 19 := by decide
    have h6 : homesLit.length = 6 := by decide
    have h21 : ("https://example.com/p".toList).length = 21 := by decide
    simp only [List.length_append, h19, h6, h21] at hlen
    have hpos : 0 < s.length := List.length_pos.mpr hs
    omega
  · exact claim10_city_unknown.2 (detail_url ("1".toList)) [] emptyPageData
      (fun kv hkv => by cases hkv)

end SaltLake
